import Mathlib

/-!
Shallow embedding of `src/visualizations/src/data/Connection.ts` (class
`QlogConnection`): a single qlog trace holding a sequence of positionally
encoded raw events, a pluggable event parser, and a two-level
category/type lookup table, plus the `ConnectionGroup` parent collaborator.

JavaScript `Map<string, _>` values are modelled as association lists over
`String` keys: `Map.has`/`Map.get` act on the (unique) first occurrence of a
key and `Map.set` of a fresh key appends it in insertion order, which is
exactly what `alistFind` / `alistModify` / appending `(k, v)` do here.
Mutation of the maps and arrays is modelled by explicit state passing:
every method of the class becomes a function from the receiver state to
the updated state (and a thrown TypeError becomes `Option.none`).
-/

namespace Qvis

/-- An untyped JSON-like field value of a raw qlog event (`any` in the
source).  Raw events are flat arrays of such values. -/
inductive Val where
  | vStr : String → Val
  | vNum : Int → Val
  | vBool : Bool → Val
  | vNull : Val
deriving DecidableEq, Repr

/-- `IQlogRawEvent`: a raw positional event, an ordered list of untyped
field values. -/
abbrev RawEvent := List Val

/-- The normalized view of one raw event produced by a parser's `load`:
named access to timestamp, category, name (event type) and payload data. -/
structure ParsedEventView where
  timestamp : Val
  category : String
  name : String
  data : Val
deriving DecidableEq, Repr

/-- `IQlogEventParser` after `init`: its observable behaviour is the
`load` function taking a raw event to its parsed view.  Per the spec this
is deterministic and pure with respect to the trace it was initialized
against, so it is modelled as a plain function. -/
structure EventParser where
  load : RawEvent → ParsedEventView

/-- `Map.get(k)` / the lookup part of `Map.has(k)`: find the value stored
at string key `k` (first occurrence). -/
def alistFind {β : Type} : List (String × β) → String → Option β
  | [], _ => none
  | (a, v) :: rest, k => if a = k then some v else alistFind rest k

/-- Update in place the value stored at key `k` (first occurrence), as JS
`Map.get(k)` followed by mutation of the retrieved object does.  Keys not
present are left untouched. -/
def alistModify {β : Type} : List (String × β) → String → (β → β) → List (String × β)
  | [], _, _ => []
  | (a, v) :: rest, k, f =>
      if a = k then (a, f v) :: rest else (a, v) :: alistModify rest k f

/-- The ensure-exists step used by the build loop:
`if (!map.has(k)) { map.set(k, fresh) }`.  A fresh key is appended in
insertion order, as JS `Map.set` does. -/
def alistEnsure {β : Type} (m : List (String × β)) (k : String) (fresh : β) :
    List (String × β) :=
  if (alistFind m k).isSome then m else m ++ [(k, fresh)]

/-- One leaf of the lookup table: the matching raw events in trace order. -/
abbrev Bucket := List RawEvent

/-- The inner map of the lookup table: event type (`name`) to bucket. -/
abbrev CategoryMap := List (String × Bucket)

/-- `Map<string, Map<string, Array<IQlogRawEvent>>>`: category to inner
map, in insertion order. -/
abbrev LookupTable := List (String × CategoryMap)

/-- The trace configuration defaulted in the field initializer:
`{ time_offset: "0", time_units: "ms", original_uris: [] }`. -/
structure Configuration where
  time_offset : String
  time_units : String
  original_uris : List String
deriving DecidableEq, Repr

/-- The state of one `QlogConnection` instance: metadata, the raw event
sequence, the lookup table and the (possibly still unattached) parser.
`eventParser` is declared with a definite-assignment assertion (`!`) in
the source, so before `setEventParser` runs it is `undefined`, here
`none`. -/
structure QlogConnection where
  title : String
  description : String
  eventFieldNames : List String
  commonFields : List (String × Val)
  configuration : Configuration
  vantagePoint : Val
  events : List RawEvent
  lookupTable : LookupTable
  eventParser : Option EventParser

/-- The parent collaborator `QlogConnectionGroup`, reduced to what the
spec exposes of it: the list of registered connections. -/
structure ConnectionGroup where
  connections : List QlogConnection

/-- Modelled from the spec: `ConnectionGroup.addConnection(trace)` is not
under `src/`; per §6 it is the "registration side effect when a Trace is
constructed", recording the new trace in the parent group.  Registration
appends the trace to the group's connection list, leaving everything else
unchanged. -/
def ConnectionGroup.addConnection (g : ConnectionGroup) (t : QlogConnection) : ConnectionGroup :=
  { g with connections := g.connections ++ [t] }

namespace QlogConnection

/-- The field state established by the constructor body together with the
field initializers: fresh empty events, fresh empty lookup table, no
parser attached yet (`vantagePoint` is not assigned by the constructor;
its pre-assignment `undefined` is rendered `Val.vNull`). -/
def mkConnection : QlogConnection :=
  { title := "NewConnection"
    description := ""
    eventFieldNames := []
    commonFields := []
    configuration := { time_offset := "0", time_units := "ms", original_uris := [] }
    vantagePoint := Val.vNull
    events := []
    lookupTable := []
    eventParser := none }

/-- `constructor(parent)`: initialize the fields and register the new
connection with the parent via `addConnection`.  Returns the new
connection together with the updated parent group.  (The `_isVue`
assignments suppress UI-framework change tracking and have no semantic
content.) -/
def construct (g : ConnectionGroup) : QlogConnection × ConnectionGroup :=
  (mkConnection, g.addConnection mkConnection)

/-- `setEvents(events)`: replace the raw event sequence wholesale.  The
lookup table field is not touched by this method. -/
def setEvents (t : QlogConnection) (es : List RawEvent) : QlogConnection :=
  { t with events := es }

/-- `getEvents()`: the live event sequence. -/
def getEvents (t : QlogConnection) : List RawEvent :=
  t.events

/-- `setEventParser(parser)`: attach the parser and initialize it against
this trace.  `init` binds the parser to the trace's field declarations;
the bound behaviour is the `load` function carried by `EventParser`. -/
def setEventParser (t : QlogConnection) (p : EventParser) : QlogConnection :=
  { t with eventParser := some p }

/-- `getEventParser()`. -/
def getEventParser (t : QlogConnection) : Option EventParser :=
  t.eventParser

/-- `parseEvent(evt)`: `this.eventParser.load(evt)`.  When no parser was
ever attached, `this.eventParser` is `undefined` and the call throws a
TypeError, rendered `none`. -/
def parseEvent (t : QlogConnection) (evt : RawEvent) : Option ParsedEventView :=
  t.eventParser.map (fun p => p.load evt)

/-- The loop body of `setupLookupTable` for one event with parsed keys
`(category, eventType)`:
if the table has no entry for `category`, set it to a fresh empty map;
then, in the category's map, if there is no entry for `eventType`, set it
to a fresh empty array; finally push the raw event onto that array. -/
def tableInsert (lt : LookupTable) (category eventType : String) (evt : RawEvent) : LookupTable :=
  alistModify (alistEnsure lt category []) category (fun cm =>
    alistModify (alistEnsure cm eventType []) eventType (fun b => b ++ [evt]))

/-- The loop of `setupLookupTable` with the parser attached: fold
`tableInsert` over the events in order, keying each event by the
`category` and `name` of its parsed view. -/
def buildTable (p : EventParser) : List RawEvent → LookupTable → LookupTable
  | [], lt => lt
  | evt :: rest, lt =>
      buildTable p rest (tableInsert lt (p.load evt).category (p.load evt).name evt)

/-- The loop of `setupLookupTable` as written: each iteration calls
`this.parseEvent(evt)`, which throws when no parser is attached; a throw
leaves the table as it stood (the first iteration throws before any
insertion). -/
def buildTableM (p? : Option EventParser) : List RawEvent → LookupTable → Option LookupTable
  | [], lt => some lt
  | evt :: rest, lt =>
      match p? with
      | none => none
      | some p =>
          buildTableM p? rest (tableInsert lt (p.load evt).category (p.load evt).name evt)

/-- `setupLookupTable()`: return immediately when the table already has
at least one entry (`this.lookupTable.size !== 0`); otherwise run the
build loop over the current events.  `none` models the TypeError thrown
when the loop runs an iteration with no parser attached. -/
def setupLookupTable (t : QlogConnection) : Option QlogConnection :=
  if t.lookupTable.length ≠ 0 then
    some t
  else
    (buildTableM t.eventParser t.events []).map (fun lt => { t with lookupTable := lt })

/-- The bucket a table associates to `(category, eventType)`, empty when
either key is absent. -/
def bucketIn (lt : LookupTable) (category eventType : String) : Bucket :=
  ((alistFind lt category).bind (fun cm => alistFind cm eventType)).getD []

/-- `lookup(category, eventType)`: the stored bucket when the table has
both keys, and a fresh empty array otherwise. -/
def lookup (t : QlogConnection) (category eventType : String) : Bucket :=
  match alistFind t.lookupTable category with
  | some cm =>
      match alistFind cm eventType with
      | some b => b
      | none => []
  | none => []

/-- `JSON.parse(JSON.stringify(x))` on the JSON-representable metadata
and event values used here is a structural deep copy; on immutable Lean
values a structural copy is the value itself. -/
def jsonDeepCopy {α : Type} (x : α) : α := x

/-- `clone()`: construct a fresh connection under the same parent (which
registers it with the group), then overwrite its metadata and events with
structural copies of the original's, alias the parser, and leave the
fresh (empty) lookup table in place.  The object registered in the group
is the very object the field assignments mutate, so the group ends up
holding the finished clone. -/
def cloneTrace (t : QlogConnection) : QlogConnection :=
  { mkConnection with
      title := t.title
      description := t.description
      eventFieldNames := t.eventFieldNames
      commonFields := jsonDeepCopy t.commonFields
      configuration := jsonDeepCopy t.configuration
      vantagePoint := jsonDeepCopy t.vantagePoint
      events := jsonDeepCopy t.events
      eventParser := t.eventParser }

/-- `clone()` together with its side effect on the parent group. -/
def clone (t : QlogConnection) (g : ConnectionGroup) : QlogConnection × ConnectionGroup :=
  (cloneTrace t, g.addConnection (cloneTrace t))

/-- The public operations a consumer can invoke on one connection, for
stating lifetime properties over arbitrary call sequences. -/
inductive Op where
  | opSetEvents : List RawEvent → Op
  | opSetEventParser : EventParser → Op
  | opParseEvent : RawEvent → Op
  | opSetup : Op
  | opLookup : String → String → Op

/-- The state effect of one operation on the connection.  `parseEvent`
and `lookup` are queries and never write the state; a `setupLookupTable`
call that throws does so on its first loop iteration, before any
insertion, and therefore also leaves the state as it was. -/
def applyOp (t : QlogConnection) : Op → QlogConnection
  | .opSetEvents es => t.setEvents es
  | .opSetEventParser p => t.setEventParser p
  | .opParseEvent _ => t
  | .opSetup => (setupLookupTable t).getD t
  | .opLookup _ _ => t

/-- The state after a whole call sequence. -/
def applyOps (t : QlogConnection) (ops : List Op) : QlogConnection :=
  ops.foldl applyOp t

/-- The build loop instrumented with a counter of calls to the attached
parser's `load`: as written, each iteration invokes `this.parseEvent(evt)`
twice — once for `.category` and once for `.name`. -/
def buildTableCount (p : EventParser) : List RawEvent → LookupTable → Nat → LookupTable × Nat
  | [], lt, calls => (lt, calls)
  | evt :: rest, lt, calls =>
      buildTableCount p rest
        (tableInsert lt (p.load evt).category (p.load evt).name evt) (calls + 2)

/-- A world holding an original trace and its clone side by side, to
state that replacing one trace's events leaves the other's untouched. -/
def cloneWorld (t : QlogConnection) (g : ConnectionGroup) :
    QlogConnection × QlogConnection :=
  (t, (clone t g).1)

/-- `setEvents` invoked on the first trace of a two-trace world. -/
def setEventsFst (w : QlogConnection × QlogConnection) (es : List RawEvent) :
    QlogConnection × QlogConnection :=
  (w.1.setEvents es, w.2)

/-- `setEvents` invoked on the second trace of a two-trace world. -/
def setEventsSnd (w : QlogConnection × QlogConnection) (es : List RawEvent) :
    QlogConnection × QlogConnection :=
  (w.1, w.2.setEvents es)

/-- A concrete parser for the spec's end-to-end scenario, field order
`[time, category, name, data]`: category at index 1, name at index 2. -/
def demoParser : EventParser :=
  { load := fun evt =>
      { timestamp := (evt[0]?).getD Val.vNull
        category := match evt[1]? with
          | some (Val.vStr s) => s
          | _ => ""
        name := match evt[2]? with
          | some (Val.vStr s) => s
          | _ => ""
        data := (evt[3]?).getD Val.vNull } }

/-- `[0, "transport", "packet_sent", {}]` from the spec's scenario. -/
def ev0 : RawEvent := [Val.vNum 0, Val.vStr "transport", Val.vStr "packet_sent", Val.vNull]

/-- `[1, "transport", "packet_received", {}]` from the spec's scenario. -/
def ev1 : RawEvent := [Val.vNum 1, Val.vStr "transport", Val.vStr "packet_received", Val.vNull]

/-- `[2, "http", "frame_sent", {}]` from the spec's scenario. -/
def ev2 : RawEvent := [Val.vNum 2, Val.vStr "http", Val.vStr "frame_sent", Val.vNull]

/-- A fresh connection with the demo parser attached and the three
scenario events loaded, index not yet built. -/
def demoTrace : QlogConnection :=
  (mkConnection.setEventParser demoParser).setEvents [ev0, ev1, ev2]

/-- `demoTrace` after its index build. -/
def demoBuilt : QlogConnection :=
  { demoTrace with lookupTable := buildTable demoParser demoTrace.events [] }

end QlogConnection

/-! ## Association-list lemmas -/

theorem alistFind_modify {β : Type} (m : List (String × β)) (k k' : String) (f : β → β) :
    alistFind (alistModify m k f) k' =
      if k = k' then (alistFind m k).map f else alistFind m k' := by
  induction m with
  | nil => simp [alistFind, alistModify]
  | cons hd tl ih =>
      obtain ⟨a, v⟩ := hd
      by_cases hak : a = k
      · subst hak
        by_cases hk : a = k'
        · subst hk; simp [alistModify, alistFind]
        · simp [alistModify, alistFind, hk]
      · by_cases ha' : a = k'
        · subst ha'
          have hka : ¬ (k = a) := fun h => hak h.symm
          simp [alistModify, alistFind, hak, hka]
        · simp [alistModify, alistFind, hak, ha', ih]

theorem alistFind_append_of_isSome {β : Type} (m l : List (String × β)) (k : String)
    (h : (alistFind m k).isSome) : alistFind (m ++ l) k = alistFind m k := by
  induction m with
  | nil => simp [alistFind] at h
  | cons hd tl ih =>
      obtain ⟨a, v⟩ := hd
      by_cases hak : a = k
      · simp [List.cons_append, alistFind, hak]
      · simp only [alistFind, if_neg hak] at h
        simp only [List.cons_append, alistFind, if_neg hak]
        exact ih h

theorem alistFind_append_of_none {β : Type} (m l : List (String × β)) (k : String)
    (h : alistFind m k = none) : alistFind (m ++ l) k = alistFind l k := by
  induction m with
  | nil => simp [alistFind]
  | cons hd tl ih =>
      obtain ⟨a, v⟩ := hd
      by_cases hak : a = k
      · simp [alistFind, hak] at h
      · simp only [alistFind, if_neg hak] at h
        simp only [List.cons_append, alistFind, if_neg hak]
        exact ih h

theorem alistFind_ensure_self {β : Type} (m : List (String × β)) (k : String) (fresh : β) :
    alistFind (alistEnsure m k fresh) k = some ((alistFind m k).getD fresh) := by
  unfold alistEnsure
  cases h : alistFind m k with
  | some v => simp [h]
  | none =>
      simp only [h, Option.isSome_none, Bool.false_eq_true, if_false, Option.getD_none]
      rw [alistFind_append_of_none _ _ _ h]
      simp [alistFind]

theorem alistFind_ensure_other {β : Type} (m : List (String × β)) (k k' : String) (fresh : β)
    (hne : k ≠ k') : alistFind (alistEnsure m k fresh) k' = alistFind m k' := by
  unfold alistEnsure
  cases h : alistFind m k with
  | some v => simp
  | none =>
      simp only [h, Option.isSome_none, Bool.false_eq_true, if_false]
      cases h' : alistFind m k' with
      | some w =>
          rw [alistFind_append_of_isSome]
          · exact h'
          · simp [h']
      | none =>
          rw [alistFind_append_of_none _ _ _ h']
          simp [alistFind, hne]

theorem length_alistModify {β : Type} (m : List (String × β)) (k : String) (f : β → β) :
    (alistModify m k f).length = m.length := by
  induction m with
  | nil => rfl
  | cons hd tl ih =>
      obtain ⟨a, v⟩ := hd
      by_cases hak : a = k
      · simp [alistModify, hak]
      · simp [alistModify, hak, ih]

theorem length_alistEnsure {β : Type} (m : List (String × β)) (k : String) (fresh : β) :
    m.length ≤ (alistEnsure m k fresh).length ∧ 0 < (alistEnsure m k fresh).length := by
  unfold alistEnsure
  cases h : alistFind m k with
  | some v =>
      simp only [h, Option.isSome_some, if_true]
      refine ⟨le_refl _, ?_⟩
      cases m with
      | nil => simp [alistFind] at h
      | cons hd tl => simp
  | none => simp

theorem alistFind_modify_ensure_self {β : Type} (m : List (String × β)) (k : String)
    (fresh : β) (f : β → β) :
    alistFind (alistModify (alistEnsure m k fresh) k f) k =
      some (f ((alistFind m k).getD fresh)) := by
  rw [alistFind_modify, if_pos rfl, alistFind_ensure_self]
  rfl

theorem alistFind_modify_ensure_other {β : Type} (m : List (String × β)) (k k' : String)
    (fresh : β) (f : β → β) (hne : k ≠ k') :
    alistFind (alistModify (alistEnsure m k fresh) k f) k' = alistFind m k' := by
  rw [alistFind_modify, if_neg hne, alistFind_ensure_other _ _ _ _ hne]

/-! ## Lookup-table build lemmas -/

namespace QlogConnection

theorem bucketIn_tableInsert (lt : LookupTable) (c' n' c n : String) (evt : RawEvent) :
    bucketIn (tableInsert lt c' n' evt) c n =
      bucketIn lt c n ++ (if c' = c ∧ n' = n then [evt] else []) := by
  by_cases hc : c' = c
  · subst hc
    by_cases hn : n' = n
    · subst hn
      unfold tableInsert bucketIn
      rw [alistFind_modify_ensure_self]
      simp only [Option.some_bind]
      rw [alistFind_modify_ensure_self]
      cases hfc : alistFind lt c' with
      | none => simp [alistFind]
      | some cm => cases hfn : alistFind cm n' <;> simp
    · unfold tableInsert bucketIn
      rw [alistFind_modify_ensure_self]
      simp only [Option.some_bind]
      rw [alistFind_modify_ensure_other _ _ _ _ _ hn]
      cases hfc : alistFind lt c' with
      | none => simp [alistFind, hn]
      | some cm => simp [hn]
  · unfold tableInsert bucketIn
    rw [alistFind_modify_ensure_other _ _ _ _ _ hc]
    simp [hc]

theorem bucketIn_buildTable (p : EventParser) (es : List RawEvent) (lt : LookupTable)
    (c n : String) :
    bucketIn (buildTable p es lt) c n =
      bucketIn lt c n ++
        es.filter (fun evt => decide ((p.load evt).category = c ∧ (p.load evt).name = n)) := by
  induction es generalizing lt with
  | nil => simp [buildTable]
  | cons evt rest ih =>
      simp only [buildTable]
      rw [ih, bucketIn_tableInsert]
      by_cases h : (p.load evt).category = c ∧ (p.load evt).name = n
      · simp [List.filter_cons, h, List.append_assoc]
      · simp [List.filter_cons, h]

theorem buildTableM_some (p : EventParser) (es : List RawEvent) (lt : LookupTable) :
    buildTableM (some p) es lt = some (buildTable p es lt) := by
  induction es generalizing lt with
  | nil => rfl
  | cons evt rest ih =>
      simp only [buildTableM, buildTable]
      exact ih _

theorem length_tableInsert (lt : LookupTable) (c n : String) (evt : RawEvent) :
    lt.length ≤ (tableInsert lt c n evt).length ∧ 0 < (tableInsert lt c n evt).length := by
  unfold tableInsert
  rw [length_alistModify]
  exact length_alistEnsure lt c []

theorem length_le_buildTable (p : EventParser) (es : List RawEvent) (lt : LookupTable) :
    lt.length ≤ (buildTable p es lt).length := by
  induction es generalizing lt with
  | nil => simp [buildTable]
  | cons evt rest ih =>
      simp only [buildTable]
      exact le_trans (length_tableInsert lt _ _ evt).1 (ih _)

theorem buildTable_pos_of_cons (p : EventParser) (evt : RawEvent) (rest : List RawEvent)
    (lt : LookupTable) : 0 < (buildTable p (evt :: rest) lt).length := by
  simp only [buildTable]
  exact lt_of_lt_of_le (length_tableInsert lt _ _ evt).2 (length_le_buildTable p rest _)

theorem lookup_eq_bucketIn (t : QlogConnection) (c n : String) :
    lookup t c n = bucketIn t.lookupTable c n := by
  unfold lookup bucketIn
  cases hfc : alistFind t.lookupTable c with
  | none => rfl
  | some cm =>
      cases hfn : alistFind cm n with
      | none => simp [hfn]
      | some b => simp [hfn]

theorem setupLookupTable_preserves (t t' : QlogConnection)
    (h : setupLookupTable t = some t') :
    t'.events = t.events ∧ t'.eventParser = t.eventParser := by
  unfold setupLookupTable at h
  by_cases hg : t.lookupTable.length ≠ 0
  · rw [if_pos hg] at h
    obtain rfl : t = t' := Option.some.inj h
    exact ⟨rfl, rfl⟩
  · rw [if_neg hg] at h
    cases hb : buildTableM t.eventParser t.events [] with
    | none => rw [hb] at h; simp at h
    | some lt =>
        rw [hb] at h
        simp only [Option.map_some'] at h
        obtain rfl := Option.some.inj h
        exact ⟨rfl, rfl⟩

theorem update_lookupTable_self (t : QlogConnection) (lt : LookupTable)
    (h : t.lookupTable = lt) : ({ t with lookupTable := lt } : QlogConnection) = t := by
  cases t
  dsimp at h
  subst h
  rfl

theorem setupLookupTable_of_nonempty (t : QlogConnection) (h : t.lookupTable ≠ []) :
    setupLookupTable t = some t := by
  unfold setupLookupTable
  have h' : t.lookupTable.length ≠ 0 := by simpa using h
  rw [if_pos h']

theorem setupLookupTable_build (t : QlogConnection) (p : EventParser)
    (hp : t.eventParser = some p) (h0 : t.lookupTable = []) :
    setupLookupTable t = some { t with lookupTable := buildTable p t.events [] } := by
  unfold setupLookupTable
  have h' : ¬ t.lookupTable.length ≠ 0 := by simp [h0]
  rw [if_neg h', hp, buildTableM_some]
  rfl

theorem setupLookupTable_empty_events (t : QlogConnection)
    (h0 : t.lookupTable = []) (hev : t.events = []) :
    setupLookupTable t = some t := by
  unfold setupLookupTable
  have h' : ¬ t.lookupTable.length ≠ 0 := by simp [h0]
  rw [if_neg h']
  have h1 : buildTableM t.eventParser t.events [] = some [] := by
    rw [hev]
    cases t.eventParser <;> rfl
  rw [h1]
  simp only [Option.map_some']
  exact congrArg some (update_lookupTable_self t [] h0)

/-! ## Claim theorems -/

/-- C1: on a trace with an attached parser and a not-yet-built index,
after `setupLookupTable` every bucket `(c, n)` of the index holds exactly
the events of the raw sequence whose parsed category is `c` and parsed
name is `n`, in their original relative order; consequently every event
appears in the bucket keyed by its own parsed `(category, name)` and in
no other bucket. -/
theorem C1_index_buckets_partition (t t' : QlogConnection) (p : EventParser)
    (hp : t.eventParser = some p) (h0 : t.lookupTable = [])
    (hs : setupLookupTable t = some t') :
    (∀ c n, lookup t' c n =
        t.events.filter
          (fun evt => decide ((p.load evt).category = c ∧ (p.load evt).name = n)))
    ∧ (∀ evt, evt ∈ t.events →
        evt ∈ lookup t' (p.load evt).category (p.load evt).name)
    ∧ (∀ evt c n, evt ∈ lookup t' c n →
        evt ∈ t.events ∧ (p.load evt).category = c ∧ (p.load evt).name = n) := by
  rw [setupLookupTable_build t p hp h0] at hs
  obtain rfl := Option.some.inj hs
  have hlk : ∀ c n,
      lookup { t with lookupTable := buildTable p t.events [] } c n =
        t.events.filter
          (fun evt => decide ((p.load evt).category = c ∧ (p.load evt).name = n)) := by
    intro c n
    rw [lookup_eq_bucketIn]
    show bucketIn (buildTable p t.events []) c n = _
    rw [bucketIn_buildTable]
    simp [bucketIn, alistFind]
  refine ⟨hlk, ?_, ?_⟩
  · intro evt hin
    rw [hlk]
    exact List.mem_filter.mpr ⟨hin, by simp⟩
  · intro evt c n hmem
    rw [hlk] at hmem
    have hsplit := List.mem_filter.mp hmem
    have hkeys := hsplit.2
    simp only [decide_eq_true_eq] at hkeys
    exact ⟨hsplit.1, hkeys.1, hkeys.2⟩

/-- C1 witness: the spec's end-to-end scenario, three events with field
order `[time, category, name, data]`. -/
theorem C1_index_buckets_partition_witness :
    demoTrace.eventParser = some demoParser
    ∧ demoTrace.lookupTable = []
    ∧ setupLookupTable demoTrace = some demoBuilt
    ∧ lookup demoBuilt "transport" "packet_sent" = [ev0]
    ∧ lookup demoBuilt "quic" "ack" = [] := by
  have h := (C1_index_buckets_partition demoTrace demoBuilt demoParser rfl rfl
    (setupLookupTable_build demoTrace demoParser rfl rfl)).1
  refine ⟨rfl, rfl, setupLookupTable_build demoTrace demoParser rfl rfl, ?_, ?_⟩
  · rw [h "transport" "packet_sent"]
    decide
  · rw [h "quic" "ack"]
    decide

/-- C2 (amended): `setEvents` replaces the raw event sequence wholesale
but does NOT clear the previously built index: the lookup table field is
left exactly as it stood, so lookups keep answering from the stale
buckets. -/
theorem C2_setEvents_keeps_index (t : QlogConnection) (es : List RawEvent) (c n : String) :
    (t.setEvents es).lookupTable = t.lookupTable
    ∧ (t.setEvents es).events = es
    ∧ lookup (t.setEvents es) c n = lookup t c n :=
  ⟨rfl, rfl, rfl⟩

/-- C2 counterexample: on the scenario trace with its index built,
replacing the events via `setEvents` leaves the index non-empty and a
lookup still returns the pre-replacement bucket — the index is not
cleared. -/
theorem C2_counterexample :
    setupLookupTable demoTrace = some demoBuilt
    ∧ demoBuilt.lookupTable ≠ []
    ∧ (demoBuilt.setEvents [[Val.vNum 9]]).lookupTable ≠ []
    ∧ lookup (demoBuilt.setEvents [[Val.vNum 9]]) "transport" "packet_sent" = [ev0] := by
  refine ⟨setupLookupTable_build demoTrace demoParser rfl rfl, ?_, ?_, ?_⟩ <;> decide

/-- C3: when `setupLookupTable` succeeds and yields `t'`, calling it
again on `t'` (no intervening `setEvents`) returns `t'` unchanged; and
whenever the index already has at least one category entry the call is a
no-op returning the trace as is. -/
theorem C3_setup_idempotent (t t' : QlogConnection)
    (hs : setupLookupTable t = some t') :
    setupLookupTable t' = some t' ∧ (t.lookupTable ≠ [] → t' = t) := by
  by_cases hg : t.lookupTable = []
  · refine ⟨?_, fun h => absurd hg h⟩
    cases hp : t.eventParser with
    | none =>
        cases hev : t.events with
        | nil =>
            rw [setupLookupTable_empty_events t hg hev] at hs
            obtain rfl := Option.some.inj hs
            exact setupLookupTable_empty_events t hg hev
        | cons e rest =>
            unfold setupLookupTable at hs
            have h' : ¬ t.lookupTable.length ≠ 0 := by simp [hg]
            rw [if_neg h', hp, hev] at hs
            simp [buildTableM] at hs
    | some p =>
        rw [setupLookupTable_build t p hp hg] at hs
        obtain rfl := Option.some.inj hs
        cases hev : t.events with
        | nil =>
            apply setupLookupTable_empty_events <;> rfl
        | cons e rest =>
            apply setupLookupTable_of_nonempty
            show buildTable p (e :: rest) [] ≠ []
            intro hnil
            have hpos := buildTable_pos_of_cons p e rest []
            rw [hnil] at hpos
            simp at hpos
  · refine ⟨?_, fun _ => ?_⟩
    · rw [setupLookupTable_of_nonempty t hg] at hs
      obtain rfl := Option.some.inj hs
      exact setupLookupTable_of_nonempty t hg
    · rw [setupLookupTable_of_nonempty t hg] at hs
      exact (Option.some.inj hs).symm

/-- C3 witness: the scenario trace; a second build on the built trace
returns it unchanged. -/
theorem C3_setup_idempotent_witness :
    setupLookupTable demoTrace = some demoBuilt
    ∧ setupLookupTable demoBuilt = some demoBuilt :=
  ⟨setupLookupTable_build demoTrace demoParser rfl rfl,
    (C3_setup_idempotent demoTrace demoBuilt
      (setupLookupTable_build demoTrace demoParser rfl rfl)).1⟩

/-- C4: `lookup` is a total, pure query: as a state operation it leaves
the trace untouched (in particular it never builds the index as a side
effect); it returns the stored bucket when both keys are present, and an
empty sequence when either key is absent — in particular on an unbuilt
(empty) index it returns empty for every key. -/
theorem C4_lookup_total_pure (t : QlogConnection) (c n : String) :
    applyOp t (Op.opLookup c n) = t
    ∧ (∀ cm b, alistFind t.lookupTable c = some cm → alistFind cm n = some b →
        lookup t c n = b)
    ∧ ((alistFind t.lookupTable c).bind (fun cm => alistFind cm n) = none →
        lookup t c n = [])
    ∧ (t.lookupTable = [] → lookup t c n = []) := by
  refine ⟨rfl, ?_, ?_, ?_⟩
  · intro cm b h1 h2
    rw [lookup_eq_bucketIn]
    unfold bucketIn
    rw [h1]
    simp [h2]
  · intro h
    rw [lookup_eq_bucketIn]
    unfold bucketIn
    rw [h]
    rfl
  · intro h0
    rw [lookup_eq_bucketIn]
    unfold bucketIn
    rw [h0]
    rfl

/-- C4 witness: a fresh connection has an unbuilt index, and a lookup on
it is pure and returns the empty sequence. -/
theorem C4_lookup_total_pure_witness :
    mkConnection.lookupTable = []
    ∧ applyOp mkConnection (Op.opLookup "quic" "ack") = mkConnection
    ∧ lookup mkConnection "quic" "ack" = [] :=
  ⟨rfl, (C4_lookup_total_pure mkConnection "quic" "ack").1,
    (C4_lookup_total_pure mkConnection "quic" "ack").2.2.2 rfl⟩

/-- C5: the clone's events are element-wise (deeply) equal to the
original's at clone time, and the two sequences are independent:
replacing either trace's events via `setEvents` leaves the other
trace's events untouched. -/
theorem C5_clone_events_independent (t : QlogConnection) (g : ConnectionGroup)
    (es : List RawEvent) :
    (cloneWorld t g).2.getEvents = (cloneWorld t g).1.getEvents
    ∧ (setEventsSnd (cloneWorld t g) es).2.getEvents = es
    ∧ (setEventsSnd (cloneWorld t g) es).1.getEvents = t.getEvents
    ∧ (setEventsFst (cloneWorld t g) es).1.getEvents = es
    ∧ (setEventsFst (cloneWorld t g) es).2.getEvents = (clone t g).1.getEvents :=
  ⟨rfl, rfl, rfl, rfl, rfl⟩

/-- C6: a clone starts with an empty index: before any
`setupLookupTable` on the clone, every lookup on it returns the empty
sequence, whatever index the original trace had built at clone time. -/
theorem C6_clone_index_empty (t : QlogConnection) (g : ConnectionGroup) (c n : String) :
    ((clone t g).1).lookupTable = [] ∧ lookup (clone t g).1 c n = [] :=
  ⟨rfl, rfl⟩

theorem lookupTable_applyOp_of_nonempty (t : QlogConnection) (op : Op)
    (h : t.lookupTable ≠ []) : (applyOp t op).lookupTable = t.lookupTable := by
  cases op with
  | opSetEvents es => rfl
  | opSetEventParser p => rfl
  | opParseEvent e => rfl
  | opLookup c n => rfl
  | opSetup =>
      show ((setupLookupTable t).getD t).lookupTable = t.lookupTable
      rw [setupLookupTable_of_nonempty t h]
      rfl

/-- C7: once the lookup table is non-empty (Built), no sequence of the
public operations — `setEvents`, `setEventParser`, `parseEvent`,
`setupLookupTable`, `lookup` — ever returns it to the empty state: Built
is terminal for the lifetime of the trace instance. -/
theorem C7_built_is_terminal (t : QlogConnection) (ops : List Op)
    (h : t.lookupTable ≠ []) : (applyOps t ops).lookupTable ≠ [] := by
  induction ops generalizing t with
  | nil => exact h
  | cons op rest ih =>
      show (applyOps (applyOp t op) rest).lookupTable ≠ []
      apply ih
      rw [lookupTable_applyOp_of_nonempty t op h]
      exact h

/-- C7 witness: the built scenario trace stays Built across a call
sequence exercising every public operation. -/
theorem C7_built_is_terminal_witness :
    demoBuilt.lookupTable ≠ []
    ∧ (applyOps demoBuilt
        [Op.opSetEvents [], Op.opSetup, Op.opSetEventParser demoParser,
          Op.opParseEvent ev0, Op.opLookup "transport" "packet_sent"]).lookupTable ≠ [] :=
  ⟨by decide,
    C7_built_is_terminal demoBuilt
      [Op.opSetEvents [], Op.opSetup, Op.opSetEventParser demoParser,
        Op.opParseEvent ev0, Op.opLookup "transport" "packet_sent"] (by decide)⟩

theorem eventParser_applyOp (t : QlogConnection) (op : Op)
    (h : ∀ q, op ≠ Op.opSetEventParser q) :
    (applyOp t op).eventParser = t.eventParser := by
  cases op with
  | opSetEventParser q => exact absurd rfl (h q)
  | opSetEvents es => rfl
  | opParseEvent e => rfl
  | opLookup c n => rfl
  | opSetup =>
      show ((setupLookupTable t).getD t).eventParser = t.eventParser
      cases hst : setupLookupTable t with
      | none => rfl
      | some t₁ =>
          simp only [Option.getD_some]
          exact (setupLookupTable_preserves t t₁ hst).2

theorem eventParser_applyOps_none (t : QlogConnection) (ops : List Op)
    (h : t.eventParser = none) (hno : ∀ q, Op.opSetEventParser q ∉ ops) :
    (applyOps t ops).eventParser = none := by
  induction ops generalizing t with
  | nil => exact h
  | cons op rest ih =>
      show (applyOps (applyOp t op) rest).eventParser = none
      apply ih
      · rw [eventParser_applyOp t op]
        · exact h
        · intro q hq
          rw [hq] at hno
          exact (hno q) (List.mem_cons_self _ _)
      · intro q hq
        exact (hno q) (List.mem_cons_of_mem _ hq)

/-- C8: `parseEvent` on a trace whose parser was never attached fails
(the unattached-parser condition, `none`); in particular a fresh
connection, and any connection reached from a fresh one without a
`setEventParser` call, has no parser.  Once a parser is attached,
`parseEvent` returns exactly the attached parser's `load` applied to the
raw event. -/
theorem C8_parseEvent_delegation (t : QlogConnection) (p : EventParser) (evt : RawEvent) :
    (t.eventParser = none → parseEvent t evt = none)
    ∧ (∀ q, t.eventParser = some q → parseEvent t evt = some (q.load evt))
    ∧ parseEvent (t.setEventParser p) evt = some (p.load evt)
    ∧ mkConnection.eventParser = none
    ∧ (∀ ops, (∀ q, Op.opSetEventParser q ∉ ops) →
        (applyOps mkConnection ops).eventParser = none) := by
  refine ⟨?_, ?_, rfl, rfl, ?_⟩
  · intro h
    unfold parseEvent
    rw [h]
    rfl
  · intro q h
    unfold parseEvent
    rw [h]
    rfl
  · intro ops hno
    exact eventParser_applyOps_none mkConnection ops rfl hno

/-- C8 witness: a fresh connection rejects `parseEvent`; after attaching
the demo parser it delegates to its `load`. -/
theorem C8_parseEvent_delegation_witness :
    mkConnection.eventParser = none
    ∧ parseEvent mkConnection ev0 = none
    ∧ parseEvent (mkConnection.setEventParser demoParser) ev0
        = some (demoParser.load ev0) :=
  ⟨rfl, (C8_parseEvent_delegation mkConnection demoParser ev0).1 rfl,
    (C8_parseEvent_delegation mkConnection demoParser ev0).2.2.1⟩

theorem buildTableCount_spec (p : EventParser) (es : List RawEvent) (lt : LookupTable)
    (calls : Nat) :
    buildTableCount p es lt calls = (buildTable p es lt, calls + 2 * es.length) := by
  induction es generalizing lt calls with
  | nil => simp [buildTableCount, buildTable]
  | cons evt rest ih =>
      simp only [buildTableCount, buildTable]
      rw [ih]
      simp only [List.length_cons, Prod.mk.injEq, true_and]
      omega

/-- C9 (amended): during an index build on a trace with `n` events
(empty index, parser attached), the loop of `setupLookupTable` invokes
the attached parser's `load` exactly TWICE per event — once to read
`.category` and once to read `.name` — i.e. exactly `2·n` times in
total; the instrumented build produces exactly the table the build
installs. -/
theorem C9_load_called_twice_per_event (t : QlogConnection) (p : EventParser)
    (hp : t.eventParser = some p) (h0 : t.lookupTable = []) :
    (buildTableCount p t.events [] 0).2 = 2 * t.events.length
    ∧ setupLookupTable t
        = some { t with lookupTable := (buildTableCount p t.events [] 0).1 } := by
  constructor
  · rw [buildTableCount_spec]
    simp
  · rw [setupLookupTable_build t p hp h0]
    simp [buildTableCount_spec]

/-- C9 witness: the three-event scenario trace, where the build performs
six `load` calls. -/
theorem C9_load_called_twice_per_event_witness :
    demoTrace.eventParser = some demoParser
    ∧ demoTrace.lookupTable = []
    ∧ (buildTableCount demoParser demoTrace.events [] 0).2
        = 2 * demoTrace.events.length :=
  ⟨rfl, rfl, (C9_load_called_twice_per_event demoTrace demoParser rfl rfl).1⟩

/-- C9 counterexample: on the three-event scenario trace the build
invokes `load` six times, not `n = 3` times — "exactly once per event"
is false on the code. -/
theorem C9_counterexample :
    (buildTableCount demoParser demoTrace.events [] 0).2 ≠ demoTrace.events.length := by
  decide

/-- C10: `clone()` registers the newly constructed trace with the
original's parent group during construction: the parent's connection
list afterwards is exactly the old list with the clone appended — grown
by one entry, all of its other contents unchanged. -/
theorem C10_clone_registers_with_parent (t : QlogConnection) (g : ConnectionGroup) :
    (clone t g).2.connections = g.connections ++ [(clone t g).1]
    ∧ (clone t g).2.connections.length = g.connections.length + 1
    ∧ (clone t g).2.connections.take g.connections.length = g.connections :=
  ⟨rfl, by simp [clone, ConnectionGroup.addConnection],
    by simp [clone, ConnectionGroup.addConnection, List.take_left]⟩

end QlogConnection

end Qvis
